import Mathlib

/-!
Verification of the AirLinker WebRTC file-transfer client.

The embedding models the two near-duplicate sources of the repository
(src/script.js and src/unnamed/part_000).  A file is a list of bytes,
each byte a Nat; JavaScript numbers on the relevant paths are
non-negative integers, so they are modelled as Nat with exact
arithmetic, and Math.floor(a / b * 100) on those paths is the Nat
floor division (a * 100) / b.  NaN values that arise from arithmetic
on undefined are modelled as Option.none.
-/

set_option maxHeartbeats 1000000

/-- CHUNK_SIZE from src/script.js line 7: 16 * 1024 bytes. -/
def CHUNK_SIZE : Nat := 16 * 1024

/-- Binary frames written by the while loop of sendFile
(src/script.js lines 198-220).  Each iteration sends
file.slice(offset, offset + CHUNK_SIZE) and advances offset by
CHUNK_SIZE; slice(a, b) is modelled by take after drop.  On a
transient send failure the code retries the same chunk without
advancing offset, so the successful writes form exactly this
sequence. -/
def sendChunksLoop (file : List Nat) (offset : Nat) : List (List Nat) :=
  if offset < file.length then
    (file.drop offset).take CHUNK_SIZE :: sendChunksLoop file (offset + CHUNK_SIZE)
  else []
termination_by file.length - offset
decreasing_by simp [CHUNK_SIZE]; omega

/-- Progress percentages emitted by the same while loop of sendFile
(src/script.js lines 216-219): after each successful write the code
emits Math.floor((offset / file.size) * 100) for the already advanced
offset. -/
def sendPctsLoop (file : List Nat) (offset : Nat) : List Nat :=
  if offset < file.length then
    ((offset + CHUNK_SIZE) * 100 / file.length) :: sendPctsLoop file (offset + CHUNK_SIZE)
  else []
termination_by file.length - offset
decreasing_by simp [CHUNK_SIZE]; omega

/-- The binary frames written by sendFile for a given file, in order. -/
def sentChunks (file : List Nat) : List (List Nat) :=
  sendChunksLoop file 0

/-- The progress percentages emitted by sendFile for a given file, in
order. -/
def sentPcts (file : List Nat) : List Nat :=
  sendPctsLoop file 0

theorem chunk_size_pos : 0 < CHUNK_SIZE := by decide

theorem sendChunksLoop_flatten (file : List Nat) (offset : Nat) :
    (sendChunksLoop file offset).flatten = file.drop offset := by
  induction offset using sendChunksLoop.induct with
  | file => exact file
  | case1 offset h ih =>
      rw [sendChunksLoop, if_pos h]
      rw [List.flatten_cons, ih, ← List.drop_drop, List.take_append_drop]
  | case2 offset h =>
      rw [sendChunksLoop, if_neg h]
      rw [List.flatten_nil, Eq.comm, List.drop_eq_nil_iff]
      omega

theorem ceil_div_chunk_succ (n : Nat) (hn : 0 < n) :
    (n + CHUNK_SIZE - 1) / CHUNK_SIZE = (n - CHUNK_SIZE + CHUNK_SIZE - 1) / CHUNK_SIZE + 1 := by
  have hc := chunk_size_pos
  rcases le_or_lt n CHUNK_SIZE with hle | hlt
  · have h1 : n - CHUNK_SIZE = 0 := by omega
    have h2 : n + CHUNK_SIZE - 1 = (n - 1) + CHUNK_SIZE := by omega
    rw [h1, h2, Nat.add_div_right _ chunk_size_pos]
    have h3 : (n - 1) / CHUNK_SIZE = 0 := Nat.div_eq_of_lt (by omega)
    have h4 : (0 + CHUNK_SIZE - 1) / CHUNK_SIZE = 0 := Nat.div_eq_of_lt (by omega)
    omega
  · have h2 : n + CHUNK_SIZE - 1 = (n - CHUNK_SIZE + CHUNK_SIZE - 1) + CHUNK_SIZE := by omega
    rw [h2, Nat.add_div_right _ chunk_size_pos]

theorem sendChunksLoop_count (file : List Nat) (offset : Nat) :
    (sendChunksLoop file offset).length
      = (file.length - offset + CHUNK_SIZE - 1) / CHUNK_SIZE := by
  induction offset using sendChunksLoop.induct with
  | file => exact file
  | case1 offset h ih =>
      rw [sendChunksLoop, if_pos h]
      rw [List.length_cons, ih]
      have hn : 0 < file.length - offset := by omega
      have harith := ceil_div_chunk_succ (file.length - offset) hn
      have hsub : file.length - (offset + CHUNK_SIZE) = file.length - offset - CHUNK_SIZE := by
        omega
      rw [hsub]
      omega
  | case2 offset h =>
      rw [sendChunksLoop, if_neg h]
      have hc := chunk_size_pos
      have h1 : file.length - offset = 0 := by omega
      rw [h1, List.length_nil, Eq.comm]
      exact Nat.div_eq_of_lt (by omega)

/-- C1: sendFile writes ceil(S / CHUNK_SIZE) binary frames whose byte
lengths sum to S, and whose concatenation is the original file (each
frame is the next sequential slice: no gaps, no reordering). -/
theorem sendFile_frames (file : List Nat) :
    (sentChunks file).length = (file.length + CHUNK_SIZE - 1) / CHUNK_SIZE ∧
    ((sentChunks file).map List.length).sum = file.length ∧
    (sentChunks file).flatten = file := by
  have hjoin : (sentChunks file).flatten = file := by
    have := sendChunksLoop_flatten file 0
    simpa [sentChunks] using this
  refine ⟨?_, ?_, hjoin⟩
  · have := sendChunksLoop_count file 0
    simpa [sentChunks] using this
  · rw [← List.length_flatten, hjoin]

theorem sendPctsLoop_formula (file : List Nat) (offset : Nat) :
    sendPctsLoop file offset
      = (List.range ((file.length - offset + CHUNK_SIZE - 1) / CHUNK_SIZE)).map
          (fun i => (offset + (i + 1) * CHUNK_SIZE) * 100 / file.length) := by
  induction offset using sendPctsLoop.induct with
  | file => exact file
  | case1 offset h ih =>
      rw [sendPctsLoop, if_pos h, ih]
      have hn : 0 < file.length - offset := by omega
      have hsub : file.length - (offset + CHUNK_SIZE) = file.length - offset - CHUNK_SIZE := by
        omega
      rw [hsub, ceil_div_chunk_succ (file.length - offset) hn]
      rw [List.range_succ_eq_map, List.map_cons, List.map_map]
      have hhead : (offset + (0 + 1) * CHUNK_SIZE) * 100 / file.length
          = (offset + CHUNK_SIZE) * 100 / file.length := by
        rw [Nat.zero_add, Nat.one_mul]
      rw [hhead]
      refine congrArg (_ :: ·) (List.map_congr_left ?_)
      intro i _
      simp only [Function.comp]
      have harg : offset + CHUNK_SIZE + (i + 1) * CHUNK_SIZE
          = offset + (i + 1 + 1) * CHUNK_SIZE := by ring
      rw [harg]
  | case2 offset h =>
      rw [sendPctsLoop, if_neg h]
      have hc := chunk_size_pos
      have h1 : file.length - offset = 0 := by omega
      rw [h1]
      have h2 : (0 + CHUNK_SIZE - 1) / CHUNK_SIZE = 0 := Nat.div_eq_of_lt (by omega)
      rw [h2, List.range_zero, List.map_nil]

theorem ceil_mul_chunk_ge (n : Nat) :
    n ≤ ((n + CHUNK_SIZE - 1) / CHUNK_SIZE) * CHUNK_SIZE := by
  have hc := chunk_size_pos
  have hdm := Nat.div_add_mod (n + CHUNK_SIZE - 1) CHUNK_SIZE
  have hmod : (n + CHUNK_SIZE - 1) % CHUNK_SIZE < CHUNK_SIZE := Nat.mod_lt _ hc
  rw [Nat.mul_comm]
  omega

theorem ceil_mul_chunk_dvd (n : Nat) (hpos : 0 < n) (hdvd : CHUNK_SIZE ∣ n) :
    ((n + CHUNK_SIZE - 1) / CHUNK_SIZE) * CHUNK_SIZE = n := by
  have hc := chunk_size_pos
  obtain ⟨m, hm⟩ := hdvd
  have hm1 : 0 < m := by
    rcases Nat.eq_zero_or_pos m with h0 | h1
    · rw [h0, Nat.mul_zero] at hm
      omega
    · exact h1
  have h2 : n + CHUNK_SIZE - 1 = CHUNK_SIZE * m + (CHUNK_SIZE - 1) := by omega
  rw [h2, Nat.mul_add_div hc]
  have h3 : (CHUNK_SIZE - 1) / CHUNK_SIZE = 0 := Nat.div_eq_of_lt (by omega)
  rw [h3, Nat.add_zero, Nat.mul_comm, ← hm]

/-- C3 counterexample: for a 1-byte file the single chunk write
advances offset to CHUNK_SIZE, so the emitted percentage is
floor(16384 * 100 / 1) = 1638400, not floor(bytesSent * 100 / size)
= 100, and it exceeds 100. -/
theorem sendFile_progress_counterexample :
    sentPcts [0] = [1638400] ∧ ¬ 1638400 ≤ 100 := by
  constructor
  · simp [sentPcts, sendPctsLoop, CHUNK_SIZE]
  · decide

/-- C3 amended: the emitted percentage after the i-th successful chunk
write is floor(offset * 100 / S) for offset = (i + 1) * CHUNK_SIZE,
which on the final chunk can exceed the number of bytes actually sent;
the sequence is monotonically non-decreasing, its final element is at
least 100, and it is exactly 100 at completion when CHUNK_SIZE divides
the file size (in which case offset always equals bytesSent and the
original claim holds). -/
theorem sendFile_progress_amended (file : List Nat) (h : 0 < file.length) :
    sentPcts file
      = (List.range ((file.length + CHUNK_SIZE - 1) / CHUNK_SIZE)).map
          (fun i => ((i + 1) * CHUNK_SIZE) * 100 / file.length) ∧
    List.Chain' (· ≤ ·) (sentPcts file) ∧
    (∃ p, (sentPcts file).getLast? = some p ∧ 100 ≤ p) ∧
    (CHUNK_SIZE ∣ file.length → (sentPcts file).getLast? = some 100) := by
  have hform : sentPcts file
      = (List.range ((file.length + CHUNK_SIZE - 1) / CHUNK_SIZE)).map
          (fun i => ((i + 1) * CHUNK_SIZE) * 100 / file.length) := by
    have h0 := sendPctsLoop_formula file 0
    simp only [Nat.sub_zero, Nat.zero_add] at h0
    exact h0
  have hc := chunk_size_pos
  have hcount : 0 < (file.length + CHUNK_SIZE - 1) / CHUNK_SIZE := by
    apply Nat.div_pos <;> omega
  obtain ⟨k, hk⟩ : ∃ k, (file.length + CHUNK_SIZE - 1) / CHUNK_SIZE = k + 1 :=
    ⟨_, (Nat.succ_pred_eq_of_pos hcount).symm⟩
  have hlast : (sentPcts file).getLast?
      = some (((k + 1) * CHUNK_SIZE) * 100 / file.length) := by
    rw [hform, hk, ← Nat.succ_eq_add_one, List.range_succ, List.map_append, List.map_cons,
      List.map_nil, List.getLast?_concat]
  refine ⟨hform, ?_, ?_, ?_⟩
  · rw [hform, hk, ← Nat.succ_eq_add_one, List.chain'_map, List.chain'_range_succ]
    intro m _
    apply Nat.div_le_div_right
    apply Nat.mul_le_mul_right
    apply Nat.mul_le_mul_right
    omega
  · refine ⟨((k + 1) * CHUNK_SIZE) * 100 / file.length, hlast, ?_⟩
    have hge : file.length ≤ (k + 1) * CHUNK_SIZE := by
      have := ceil_mul_chunk_ge file.length
      rw [hk] at this
      exact this
    calc 100 = file.length * 100 / file.length := by
              rw [Nat.mul_comm, Nat.mul_div_cancel _ h]
      _ ≤ ((k + 1) * CHUNK_SIZE) * 100 / file.length := by
              apply Nat.div_le_div_right
              exact Nat.mul_le_mul_right _ hge
  · intro hdvd
    rw [hlast]
    have heq : (k + 1) * CHUNK_SIZE = file.length := by
      have := ceil_mul_chunk_dvd file.length h hdvd
      rw [hk] at this
      exact this
    rw [heq, Nat.mul_comm, Nat.mul_div_cancel _ h]

/-- C3 amended witness at the concrete one-byte file. -/
theorem sendFile_progress_amended_witness :
    sentPcts [5]
      = (List.range ((1 + CHUNK_SIZE - 1) / CHUNK_SIZE)).map
          (fun i => ((i + 1) * CHUNK_SIZE) * 100 / 1) ∧
    List.Chain' (· ≤ ·) (sentPcts [5]) ∧
    (∃ p, (sentPcts [5]).getLast? = some p ∧ 100 ≤ p) ∧
    (CHUNK_SIZE ∣ 1 → (sentPcts [5]).getLast? = some 100) :=
  sendFile_progress_amended [5] (by decide)

/-- A message arriving on the data channel: a text frame (the JSON
metadata object with name and size, as parsed by JSON.parse in the
text branch of handleIncomingChunk) or a binary frame of bytes. -/
inductive ChannelMsg where
  | text (name : String) (size : Nat)
  | binary (data : List Nat)
deriving DecidableEq

/-- Receiver-side accumulator state: the JS array receivedChunks with
its expectedName and expectedSize expando properties
(src/script.js lines 229-231).  A property never assigned is
undefined, modelled as none. -/
structure RecvState where
  chunks : List (List Nat)
  expectedName : Option String
  expectedSize : Option Nat
deriving DecidableEq

/-- The initial receiver state: receivedChunks = [] with no
expectedName or expectedSize property (src/script.js line 33). -/
def initRecvState : RecvState :=
  { chunks := [], expectedName := none, expectedSize := none }

/-- Observable events of the receive path: a progress percentage
written to the UI (none models the NaN or Infinity produced when
expectedSize is undefined or zero), and the terminal event of
building the Blob from all accumulated chunks and triggering the
download with the declared name. -/
inductive RecvEvent where
  | progress (pct : Option Nat)
  | received (bytes : List Nat) (name : String)
deriving DecidableEq

/-- Math.floor((receivedSize / expectedSize) * 100) from
src/script.js line 254.  When expectedSize is undefined the division
yields NaN, and when it is 0 the result is NaN or Infinity; neither
is an integer percentage, modelled as none. -/
def recvPct (receivedSize : Nat) : Option Nat → Option Nat
  | none => none
  | some s => if s = 0 then none else some (receivedSize * 100 / s)

/-- The completion test receivedSize >= receivedChunks.expectedSize
from src/script.js line 260.  In JS a comparison with undefined is
false. -/
def sizeReached (receivedSize : Nat) : Option Nat → Bool
  | none => false
  | some s => decide (s ≤ receivedSize)

/-- receivedChunks.expectedName || "download.bin" from
src/script.js line 264: undefined and the empty string are falsy. -/
def downloadName : Option String → String
  | none => "download.bin"
  | some n => if n = "" then "download.bin" else n

/-- handleIncomingChunk (src/script.js lines 225-272).  A text frame
is parsed as metadata and resets the accumulator; a binary frame is
pushed, the progress percentage is recomputed from the new total, and
when the total reaches expectedSize the chunks are concatenated into
a Blob and the download is triggered.  The function returns the new
state and the events emitted by this call, in order. -/
def handleIncomingChunk (st : RecvState) : ChannelMsg → RecvState × List RecvEvent
  | ChannelMsg.text name size =>
      ({ chunks := [], expectedName := some name, expectedSize := some size },
       [RecvEvent.progress (some 0)])
  | ChannelMsg.binary data =>
      let newChunks := st.chunks ++ [data]
      let receivedSize := (newChunks.map List.length).sum
      let events :=
        if sizeReached receivedSize st.expectedSize then
          [RecvEvent.progress (recvPct receivedSize st.expectedSize),
           RecvEvent.received newChunks.flatten (downloadName st.expectedName)]
        else
          [RecvEvent.progress (recvPct receivedSize st.expectedSize)]
      ({ st with chunks := newChunks }, events)

/-- Sequential processing of data-channel messages by
handleIncomingChunk, collecting the emitted events in order. -/
def stepAll (st : RecvState) : List ChannelMsg → RecvState × List RecvEvent
  | [] => (st, [])
  | m :: ms =>
      let r := handleIncomingChunk st m
      let rest := stepAll r.1 ms
      (rest.1, r.2 ++ rest.2)

/-- The receive path run from the initial module state. -/
def runReceiver (msgs : List ChannelMsg) : RecvState × List RecvEvent :=
  stepAll initRecvState msgs

/-- Selector for terminal received events. -/
def isReceivedEvent : RecvEvent → Bool
  | RecvEvent.received _ _ => true
  | RecvEvent.progress _ => false

theorem stepAll_nil (st : RecvState) : stepAll st [] = (st, []) := rfl

theorem stepAll_cons (st : RecvState) (m : ChannelMsg) (ms : List ChannelMsg) :
    stepAll st (m :: ms)
      = ((stepAll (handleIncomingChunk st m).1 ms).1,
         (handleIncomingChunk st m).2 ++ (stepAll (handleIncomingChunk st m).1 ms).2) := rfl

theorem handleIncomingChunk_binary (st : RecvState) (data : List Nat) :
    handleIncomingChunk st (ChannelMsg.binary data)
      = ({ st with chunks := st.chunks ++ [data] },
         if sizeReached (((st.chunks ++ [data]).map List.length).sum) st.expectedSize then
           [RecvEvent.progress (recvPct (((st.chunks ++ [data]).map List.length).sum)
              st.expectedSize),
            RecvEvent.received ((st.chunks ++ [data]).flatten) (downloadName st.expectedName)]
         else
           [RecvEvent.progress (recvPct (((st.chunks ++ [data]).map List.length).sum)
              st.expectedSize)]) := rfl

theorem stepAll_sender_chunks (file : List Nat) (offset : Nat) :
    ∀ st : RecvState, st.expectedSize = some file.length →
      (st.chunks.map List.length).sum = offset →
      st.chunks.flatten = file.take offset →
      offset < file.length →
      ((stepAll st ((sendChunksLoop file offset).map ChannelMsg.binary)).2.filter
          isReceivedEvent)
        = [RecvEvent.received file (downloadName st.expectedName)] := by
  induction offset using sendChunksLoop.induct with
  | file => exact file
  | case1 offset h ih =>
      intro st hsz hsum hflat _
      rw [sendChunksLoop, if_pos h, List.map_cons, stepAll_cons, List.filter_append,
        handleIncomingChunk_binary]
      have hS : (((st.chunks ++ [(file.drop offset).take CHUNK_SIZE]).map List.length).sum)
          = offset + min CHUNK_SIZE (file.length - offset) := by
        rw [List.map_append, List.sum_append, hsum, List.map_cons, List.map_nil,
          List.sum_cons, List.sum_nil, List.length_take, List.length_drop, Nat.add_zero]
      have hFl : (st.chunks ++ [(file.drop offset).take CHUNK_SIZE]).flatten
          = st.chunks.flatten ++ (file.drop offset).take CHUNK_SIZE := by
        rw [List.flatten_append, List.flatten_cons, List.flatten_nil, List.append_nil]
      by_cases hcase : offset + CHUNK_SIZE < file.length
      · have hmin : min CHUNK_SIZE (file.length - offset) = CHUNK_SIZE := by omega
        have hfalse : sizeReached
            (((st.chunks ++ [(file.drop offset).take CHUNK_SIZE]).map List.length).sum)
            st.expectedSize = false := by
          rw [hS, hmin, hsz]
          simp only [sizeReached, decide_eq_false_iff_not]
          omega
        rw [hfalse, if_neg Bool.false_ne_true, List.filter_cons_of_neg Bool.false_ne_true,
          List.filter_nil, List.nil_append]
        exact ih ({ st with chunks := st.chunks ++ [(file.drop offset).take CHUNK_SIZE] })
          hsz
          (by rw [hS, hmin])
          (by rw [hFl, hflat, ← List.take_add])
          hcase
      · have hmin : min CHUNK_SIZE (file.length - offset) = file.length - offset := by omega
        have htrue : sizeReached
            (((st.chunks ++ [(file.drop offset).take CHUNK_SIZE]).map List.length).sum)
            st.expectedSize = true := by
          rw [hS, hmin, hsz]
          simp only [sizeReached, decide_eq_true_iff]
          omega
        have hrest : sendChunksLoop file (offset + CHUNK_SIZE) = [] := by
          rw [sendChunksLoop, if_neg hcase]
        have hdlen : (file.drop offset).length ≤ CHUNK_SIZE := by
          rw [List.length_drop]
          omega
        have hfile : (st.chunks ++ [(file.drop offset).take CHUNK_SIZE]).flatten = file := by
          rw [hFl, hflat, @List.take_of_length_le _ CHUNK_SIZE (file.drop offset) hdlen,
            List.take_append_drop]
        rw [htrue, if_pos rfl, hrest, List.map_nil, stepAll_nil, hfile]
        rw [List.filter_cons_of_neg Bool.false_ne_true, List.filter_cons_of_pos rfl]
        rfl
  | case2 offset h =>
      intro st _ _ _ hlt
      omega

/-- C2 counterexample: for declared size 0, the metadata message alone
never completes the transfer, because the completion check runs only
in the binary branch and sendFile sends no binary frame for an empty
file; no terminal received event is emitted, only the UI progress
reset. -/
theorem recv_zero_size_counterexample :
    (runReceiver [ChannelMsg.text "empty.bin" 0]).2 = [RecvEvent.progress (some 0)] ∧
    ((runReceiver [ChannelMsg.text "empty.bin" 0]).2.filter isReceivedEvent) = [] := by
  exact ⟨rfl, rfl⟩

/-- C2 amended: for every declared size S ≥ 1 equal to the file size,
feeding the metadata message followed by the binary frames produced by
sendFile into handleIncomingChunk emits exactly one terminal received
event, carrying a byte sequence identical to the original file and
its declared name; for S = 0 no terminal event is ever emitted, since
the completion check runs only when a binary frame arrives and none
is sent. -/
theorem recv_reconstruction_amended (file : List Nat) (name : String)
    (h : 0 < file.length) :
    ((runReceiver (ChannelMsg.text name file.length
        :: (sentChunks file).map ChannelMsg.binary)).2.filter isReceivedEvent)
      = [RecvEvent.received file (downloadName (some name))] := by
  have h1 : List.filter isReceivedEvent
      (handleIncomingChunk initRecvState (ChannelMsg.text name file.length)).2 = [] := rfl
  rw [runReceiver, stepAll_cons, List.filter_append, h1, List.nil_append]
  exact stepAll_sender_chunks file 0
    (handleIncomingChunk initRecvState (ChannelMsg.text name file.length)).1
    rfl rfl rfl h

/-- C2 amended witness at the concrete one-byte file. -/
theorem recv_reconstruction_amended_witness :
    ((runReceiver (ChannelMsg.text "f" ([42] : List Nat).length
        :: (sentChunks [42]).map ChannelMsg.binary)).2.filter isReceivedEvent)
      = [RecvEvent.received [42] (downloadName (some "f"))] :=
  recv_reconstruction_amended [42] "f" (by decide)

/-- C4 counterexample: after a completed 1-byte transfer, a further
binary frame is still appended and triggers a second terminal
received event carrying the extended byte sequence. -/
theorem recv_post_completion_counterexample :
    ((runReceiver [ChannelMsg.text "f" 1, ChannelMsg.binary [7],
        ChannelMsg.binary [8]]).2.filter isReceivedEvent)
      = [RecvEvent.received [7] "f", RecvEvent.received [7, 8] "f"] ∧
    (runReceiver [ChannelMsg.text "f" 1, ChannelMsg.binary [7],
        ChannelMsg.binary [8]]).1.chunks = [[7], [8]] := by
  exact ⟨rfl, rfl⟩

/-- C4 amended: whenever the running total of received binary bytes
after an append is at least the declared expectedSize, the chunks are
concatenated and a terminal received event carrying the joined bytes
and the declared name is emitted; but the accumulator is not cleared
and the engine keeps accepting chunks, so a binary frame arriving
after completion is appended as well and triggers a further terminal
event with the extended sequence. -/
theorem recv_completion_amended (st : RecvState) (s : Nat) (data : List Nat)
    (hsz : st.expectedSize = some s)
    (hreach : s ≤ ((st.chunks ++ [data]).map List.length).sum) :
    handleIncomingChunk st (ChannelMsg.binary data)
      = ({ st with chunks := st.chunks ++ [data] },
         [RecvEvent.progress (recvPct (((st.chunks ++ [data]).map List.length).sum)
            st.expectedSize),
          RecvEvent.received ((st.chunks ++ [data]).flatten)
            (downloadName st.expectedName)]) := by
  rw [handleIncomingChunk_binary]
  have htrue : sizeReached (((st.chunks ++ [data]).map List.length).sum)
      st.expectedSize = true := by
    rw [hsz]
    exact decide_eq_true hreach
  rw [htrue, if_pos rfl]

/-- C4 amended witness: a binary frame arriving in an
already-completed state is appended and emits another terminal
event. -/
theorem recv_completion_amended_witness :
    handleIncomingChunk
        { chunks := [[7]], expectedName := some "f", expectedSize := some 1 }
        (ChannelMsg.binary [8])
      = ({ chunks := [[7], [8]], expectedName := some "f", expectedSize := some 1 },
         [RecvEvent.progress (recvPct ((([[7], [8]] : List (List Nat)).map List.length).sum)
            (some 1)),
          RecvEvent.received [7, 8] (downloadName (some "f"))]) :=
  recv_completion_amended
    { chunks := [[7]], expectedName := some "f", expectedSize := some 1 }
    1 [8] rfl (by decide)

theorem stepAll_append (st : RecvState) (ms1 ms2 : List ChannelMsg) :
    stepAll st (ms1 ++ ms2)
      = ((stepAll (stepAll st ms1).1 ms2).1,
         (stepAll st ms1).2 ++ (stepAll (stepAll st ms1).1 ms2).2) := by
  induction ms1 generalizing st with
  | nil => rfl
  | cons m ms ih =>
      rw [List.cons_append, stepAll_cons, ih, stepAll_cons, List.append_assoc]

/-- C8 counterexample: after metadata and a binary chunk, a second
text message resets the accumulator (the three buffered bytes are
discarded) and replaces the declared name and size, instead of being
rejected as a protocol violation. -/
theorem recv_text_reinit_counterexample :
    (runReceiver [ChannelMsg.text "a" 5, ChannelMsg.binary [1, 2, 3]]).1.chunks
      = [[1, 2, 3]] ∧
    (runReceiver [ChannelMsg.text "a" 5, ChannelMsg.binary [1, 2, 3],
        ChannelMsg.text "b" 9]).1
      = { chunks := [], expectedName := some "b", expectedSize := some 9 } := by
  exact ⟨rfl, rfl⟩

/-- C8 amended: every text message on the data channel, not only the
first, is interpreted as transfer metadata: whatever the history, it
reinitializes the chunk accumulator to empty and replaces the
declared name and size; no protocol violation is raised. -/
theorem recv_text_reinit_amended (ms : List ChannelMsg) (name : String) (size : Nat) :
    (runReceiver (ms ++ [ChannelMsg.text name size])).1
      = { chunks := [], expectedName := some name, expectedSize := some size } := by
  rw [runReceiver, stepAll_append]
  rfl

theorem stepAll_binary_no_size :
    ∀ (bs : List (List Nat)) (st : RecvState), st.expectedSize = none →
      stepAll st (bs.map ChannelMsg.binary)
        = ({ st with chunks := st.chunks ++ bs },
           bs.map (fun _ => RecvEvent.progress none)) := by
  intro bs
  induction bs with
  | nil =>
      intro st hsz
      rw [List.map_nil, stepAll_nil, List.append_nil]
      rfl
  | cons b bs ih =>
      intro st hsz
      rw [List.map_cons, stepAll_cons, handleIncomingChunk_binary]
      have hfalse : sizeReached (((st.chunks ++ [b]).map List.length).sum)
          st.expectedSize = false := by
        rw [hsz]
        rfl
      have hpct : recvPct (((st.chunks ++ [b]).map List.length).sum)
          st.expectedSize = none := by
        rw [hsz]
        rfl
      rw [hfalse, if_neg Bool.false_ne_true, hpct,
        ih ({ st with chunks := st.chunks ++ [b] }) hsz, List.append_assoc]
      rfl

/-- C10: binary frames arriving before any metadata message are
appended to the accumulator whose expectedSize is undefined: every
percentage computation yields NaN (none, not an integer in [0, 100]),
the completion comparison against undefined is always false, and no
terminal received event is ever emitted, for any number of such
frames. -/
theorem recv_no_metadata (bs : List (List Nat)) :
    runReceiver (bs.map ChannelMsg.binary)
      = ({ chunks := bs, expectedName := none, expectedSize := none },
         bs.map (fun _ => RecvEvent.progress none)) :=
  stepAll_binary_no_size bs initRecvState rfl

/-- Signaling states of the underlying peer connection
(spec section 3, ConnectionState). -/
inductive SignalingState where
  | new
  | haveLocalOffer
  | haveRemoteOffer
  | stable
deriving DecidableEq

/-- Kind of a session description. -/
inductive SdpType where
  | offer
  | answer
deriving DecidableEq

/-- Modelled from the spec: the underlying peer-connection primitive
(an external capability, not code of src/).  Spec sections 3 and 4.2
give its state machine: new, then have-local-offer or
have-remote-offer after the first description is applied, then stable
after the matching description is applied.  Only the fields the state
machine reads or writes are modelled. -/
structure PeerConn where
  signalingState : SignalingState
  localDesc : Option (SdpType × String)
  remoteDesc : Option (SdpType × String)
  candidates : List String
deriving DecidableEq

/-- Modelled from the spec: pc.setLocalDescription.  Applying a local
offer moves the connection to have-local-offer; applying a local
answer completes negotiation, moving it to stable (spec section
4.2). -/
def setLocalDescription (pc : PeerConn) (t : SdpType) (sdp : String) : PeerConn :=
  { pc with
      localDesc := some (t, sdp),
      signalingState :=
        match t with
        | SdpType.offer => SignalingState.haveLocalOffer
        | SdpType.answer => SignalingState.stable }

/-- Modelled from the spec: pc.setRemoteDescription.  Applying a
remote offer moves the connection to have-remote-offer; applying a
remote answer completes negotiation, moving it to stable (spec
section 4.2). -/
def setRemoteDescription (pc : PeerConn) (t : SdpType) (sdp : String) : PeerConn :=
  { pc with
      remoteDesc := some (t, sdp),
      signalingState :=
        match t with
        | SdpType.offer => SignalingState.haveRemoteOffer
        | SdpType.answer => SignalingState.stable }

/-- Modelled from the spec: pc.addIceCandidate records the proposed
candidate on the connection (spec section 4.2; failures are logged
and non-fatal, so the successful path is modelled). -/
def addIceCandidate (pc : PeerConn) (cand : String) : PeerConn :=
  { pc with candidates := pc.candidates ++ [cand] }

/-- Modelled from the spec: the SDP payload produced by
pc.createOffer, an opaque string whose content the state machine
never inspects. -/
def createOfferSdp : String := "offer-sdp"

/-- Modelled from the spec: the SDP payload produced by
pc.createAnswer. -/
def createAnswerSdp : String := "answer-sdp"

/-- The module-level client state read by handleSignal: the peer
connection pc, whether this client has created an outbound data
channel dc (truthiness of the dc variable), and the active
sessionId (src/script.js line 32). -/
structure ClientState where
  pc : PeerConn
  dcCreated : Bool
  sessionId : String
deriving DecidableEq

/-- An incoming signaling envelope as read by handleSignal
(src/script.js lines 127-176): its type tag, its optional payload and
its sessionId field.  A missing payload field is none. -/
inductive SignalMsg where
  | sessionJoined (sessionId : String)
  | offer (sdp : Option String) (sessionId : String)
  | answer (sdp : Option String) (sessionId : String)
  | iceCandidate (candidate : Option String) (sessionId : String)
deriving DecidableEq

/-- Envelopes sent on the signaling channel by handleSignal via
ws.send. -/
inductive OutMsg where
  | offer (sdp : String) (sessionId : String)
  | answer (sdp : String) (sessionId : String)
deriving DecidableEq

/-- JavaScript truthiness of an optional string payload: undefined
and the empty string are falsy. -/
def truthy : Option String → Bool
  | none => false
  | some s => s != ""

/-- handleSignal (src/script.js lines 127-176).  Returns the new
client state and the envelopes sent, in order.  The guards mirror the
source: session-joined always creates and sends an offer; an offer
with a truthy sdp is ignored when dc is already created (self-echo on
the sender side), otherwise it is applied and answered; an answer
with a truthy sdp is ignored when the connection is already stable,
otherwise applied as the remote description; an ice-candidate with a
truthy payload is added to the connection.  No branch reads the
envelope sessionId field. -/
def handleSignal (st : ClientState) : SignalMsg → ClientState × List OutMsg
  | SignalMsg.sessionJoined _ =>
      ({ st with pc := setLocalDescription st.pc SdpType.offer createOfferSdp },
       [OutMsg.offer createOfferSdp st.sessionId])
  | SignalMsg.offer sdp _ =>
      if truthy sdp then
        if st.dcCreated then
          (st, [])
        else
          let pc1 := setRemoteDescription st.pc SdpType.offer (sdp.getD "")
          let pc2 := setLocalDescription pc1 SdpType.answer createAnswerSdp
          ({ st with pc := pc2 }, [OutMsg.answer createAnswerSdp st.sessionId])
      else (st, [])
  | SignalMsg.answer sdp _ =>
      if truthy sdp then
        if st.pc.signalingState = SignalingState.stable then
          (st, [])
        else
          ({ st with pc := setRemoteDescription st.pc SdpType.answer (sdp.getD "") }, [])
      else (st, [])
  | SignalMsg.iceCandidate cand _ =>
      if truthy cand then
        ({ st with pc := addIceCandidate st.pc (cand.getD "") }, [])
      else (st, [])

/-- A sender-side client state with an offer sent and negotiation not
yet complete, used as the concrete state of counterexamples and
witnesses. -/
def exSenderState : ClientState :=
  { pc := { signalingState := SignalingState.haveLocalOffer,
            localDesc := some (SdpType.offer, createOfferSdp),
            remoteDesc := none,
            candidates := [] },
    dcCreated := true,
    sessionId := "abc1234" }

/-- C5 counterexample: the active session id is abc1234, yet an
answer envelope carrying the different sessionId zzz9999 is processed
anyway: the remote description is applied and the connection moves to
stable, so an envelope with a non-matching sessionId does cause a
state change. -/
theorem handleSignal_session_counterexample :
    (handleSignal exSenderState (SignalMsg.answer (some "remote-sdp") "zzz9999")).1.pc.remoteDesc
      = some (SdpType.answer, "remote-sdp") ∧
    (handleSignal exSenderState
        (SignalMsg.answer (some "remote-sdp") "zzz9999")).1.pc.signalingState
      = SignalingState.stable ∧
    exSenderState.pc.remoteDesc = none ∧
    exSenderState.sessionId = "abc1234" ∧
    ("zzz9999" : String) ≠ "abc1234" := by
  refine ⟨rfl, rfl, rfl, rfl, ?_⟩
  decide

/-- Replace the sessionId field of an envelope. -/
def withSessionId (m : SignalMsg) (sid : String) : SignalMsg :=
  match m with
  | SignalMsg.sessionJoined _ => SignalMsg.sessionJoined sid
  | SignalMsg.offer sdp _ => SignalMsg.offer sdp sid
  | SignalMsg.answer sdp _ => SignalMsg.answer sdp sid
  | SignalMsg.iceCandidate cand _ => SignalMsg.iceCandidate cand sid

/-- C5 amended: handleSignal never inspects the sessionId field of an
incoming envelope; an envelope is processed identically whatever its
sessionId, so envelopes of a different session are not filtered out
and do cause state changes. -/
theorem handleSignal_ignores_sessionId (st : ClientState) (m : SignalMsg) (sid : String) :
    handleSignal st (withSessionId m sid) = handleSignal st m := by
  cases m <;> rfl

/-- C6: an answer envelope carrying a non-empty sdp received while the
connection is already stable is a no-op: the state is unchanged, no
envelope is sent, and no error is raised (handleSignal is total);
while the connection is not stable, the answer is applied as the
remote description, moving the connection to stable, with no envelope
sent. -/
theorem handleSignal_answer (st : ClientState) (sdp sid : String) (hsdp : sdp ≠ "") :
    (st.pc.signalingState = SignalingState.stable →
      handleSignal st (SignalMsg.answer (some sdp) sid) = (st, [])) ∧
    (st.pc.signalingState ≠ SignalingState.stable →
      handleSignal st (SignalMsg.answer (some sdp) sid)
        = ({ st with pc := setRemoteDescription st.pc SdpType.answer sdp }, [])) := by
  have htr : truthy (some sdp) = true := by
    simp only [truthy, bne_iff_ne, ne_eq]
    exact hsdp
  constructor
  · intro hstable
    show (if truthy (some sdp) = true then _ else _) = _
    rw [htr, if_pos rfl, if_pos hstable]
  · intro hnot
    show (if truthy (some sdp) = true then _ else _) = _
    rw [htr, if_pos rfl, if_neg hnot]
    rfl

/-- C6 witness: at a concrete stable state the duplicate answer is
dropped unchanged, and at a concrete non-stable state the answer is
applied. -/
theorem handleSignal_answer_witness :
    handleSignal
        { pc := { signalingState := SignalingState.stable,
                  localDesc := some (SdpType.offer, createOfferSdp),
                  remoteDesc := some (SdpType.answer, "a1"),
                  candidates := [] },
          dcCreated := true, sessionId := "abc1234" }
        (SignalMsg.answer (some "a2") "abc1234")
      = ({ pc := { signalingState := SignalingState.stable,
                   localDesc := some (SdpType.offer, createOfferSdp),
                   remoteDesc := some (SdpType.answer, "a1"),
                   candidates := [] },
           dcCreated := true, sessionId := "abc1234" }, []) ∧
    handleSignal exSenderState (SignalMsg.answer (some "a2") "abc1234")
      = ({ exSenderState with
            pc := setRemoteDescription exSenderState.pc SdpType.answer "a2" }, []) := by
  constructor
  · exact (handleSignal_answer _ "a2" "abc1234" (by decide)).1 rfl
  · exact (handleSignal_answer exSenderState "a2" "abc1234" (by decide)).2 (by decide)

/-- The ws.onmessage handler installed by connectWS
(src/script.js lines 98-109): the raw payload is normalized to text
and passed to JSON.parse inside a try block; if parsing throws, the
message is dropped with a console warning and nothing else happens;
otherwise the parsed envelope goes to handleSignal.  JSON.parse is a
platform primitive, abstracted as a parse function returning none
when it would throw. -/
def onWsMessage (parse : String → Option SignalMsg) (st : ClientState)
    (raw : String) : ClientState × List OutMsg :=
  match parse raw with
  | some m => handleSignal st m
  | none => (st, [])

/-- Sequential processing of raw signaling-channel payloads by the
onmessage handler, collecting the envelopes sent in order. -/
def runSignaling (parse : String → Option SignalMsg) (st : ClientState) :
    List String → ClientState × List OutMsg
  | [] => (st, [])
  | raw :: rest =>
      let r := onWsMessage parse st raw
      let r2 := runSignaling parse r.1 rest
      (r2.1, r.2 ++ r2.2)

/-- Sequential processing of already-parsed envelopes by
handleSignal. -/
def runSignals (st : ClientState) : List SignalMsg → ClientState × List OutMsg
  | [] => (st, [])
  | m :: rest =>
      let r := handleSignal st m
      let r2 := runSignals r.1 rest
      (r2.1, r.2 ++ r2.2)

/-- C7: a signaling payload that is not valid JSON is dropped (state
and outbox unchanged) and the stream continues: processing the stream
with the malformed payload in front equals processing the remaining
stream, and in general the stream is processed exactly as the
sequence of its parseable envelopes, so every subsequent valid
envelope is still parsed and handled; no error is surfaced, as
onWsMessage is total. -/
theorem connectWS_malformed_dropped (parse : String → Option SignalMsg)
    (st : ClientState) (bad : String) (raws : List String)
    (hbad : parse bad = none) :
    runSignaling parse st (bad :: raws) = runSignaling parse st raws ∧
    runSignaling parse st raws = runSignals st (raws.filterMap parse) := by
  constructor
  · show (let r := onWsMessage parse st bad
          let r2 := runSignaling parse r.1 raws
          (r2.1, r.2 ++ r2.2)) = runSignaling parse st raws
    rw [show onWsMessage parse st bad = (st, []) from by rw [onWsMessage, hbad]]
    rfl
  · induction raws generalizing st with
    | nil => rfl
    | cons raw rest ih =>
        show (let r := onWsMessage parse st raw
              let r2 := runSignaling parse r.1 rest
              (r2.1, r.2 ++ r2.2)) = runSignals st ((raw :: rest).filterMap parse)
        rw [List.filterMap_cons]
        cases hp : parse raw with
        | none =>
            rw [show onWsMessage parse st raw = (st, []) from by rw [onWsMessage, hp]]
            exact ih st
        | some m =>
            rw [show onWsMessage parse st raw = handleSignal st m from by
              rw [onWsMessage, hp]]
            show ((runSignaling parse (handleSignal st m).1 rest).1,
                  (handleSignal st m).2 ++ (runSignaling parse (handleSignal st m).1 rest).2)
              = ((runSignals (handleSignal st m).1 (rest.filterMap parse)).1,
                 (handleSignal st m).2
                   ++ (runSignals (handleSignal st m).1 (rest.filterMap parse)).2)
            rw [ih (handleSignal st m).1]

/-- A concrete parse function for the witness: only the payload
"good" parses to an envelope, anything else is invalid JSON. -/
def exParse : String → Option SignalMsg :=
  fun s =>
    if s = "good" then some (SignalMsg.iceCandidate (some "cand1") "abc1234") else none

/-- C7 witness with a malformed payload followed by a valid one. -/
theorem connectWS_malformed_dropped_witness :
    runSignaling exParse exSenderState ["not json", "good"]
      = runSignaling exParse exSenderState ["good"] ∧
    runSignaling exParse exSenderState ["good"]
      = runSignals exSenderState (["good"].filterMap exParse) :=
  connectWS_malformed_dropped exParse exSenderState "not json" ["good"] (by decide)

/-- Observable events of the flow-controlled send loop of sendFile
(src/script.js lines 198-220): each wait is one 50ms sleep taken
while dc.bufferedAmount was above the 5 * CHUNK_SIZE threshold, and
each send records the chunk written together with the bufferedAmount
reading that let the loop proceed. -/
inductive SendEvent where
  | wait
  | send (chunk : List Nat) (bufferedAmount : Nat)
deriving DecidableEq

/-- The inner backpressure loop of sendFile (src/script.js lines
202-204): while dc.bufferedAmount > 5 * CHUNK_SIZE, sleep 50ms and
re-read.  The environment is the stream of successive bufferedAmount
readings; the result is the wait events performed plus the first
reading at or below the threshold and the remaining stream, or none
if the stream is exhausted first. -/
def drainBuffer : List Nat → List SendEvent × Option (Nat × List Nat)
  | [] => ([], none)
  | b :: rest =>
      if 5 * CHUNK_SIZE < b then
        (SendEvent.wait :: (drainBuffer rest).1, (drainBuffer rest).2)
      else
        ([], some (b, rest))

/-- The flow-controlled send loop of sendFile, iterated over the
chunk sequence the loop slices (sendChunksLoop): for each chunk,
first drain the buffer below the threshold, then write the chunk.
The bufs argument is the stream of bufferedAmount readings the
environment provides; the result is the event trace, or none if the
readings are exhausted while waiting. -/
def sendFlowGo : List (List Nat) → List Nat → Option (List SendEvent)
  | [], _ => some []
  | c :: cs, bufs =>
      match drainBuffer bufs with
      | (waits, some (b, rest)) =>
          match sendFlowGo cs rest with
          | some evs => some (waits ++ SendEvent.send c b :: evs)
          | none => none
      | (_, none) => none

/-- sendFile with flow control (src/script.js lines 198-220): the
while loop walks the file in CHUNK_SIZE slices, and before each write
polls dc.bufferedAmount (sleeping 50ms per reading above the
5 * CHUNK_SIZE threshold) until the buffer has drained, writing the
chunk only then. -/
def sendFileFlow (file : List Nat) (bufs : List Nat) : Option (List SendEvent) :=
  sendFlowGo (sentChunks file) bufs

theorem drainBuffer_some (bufs : List Nat) :
    ∀ waits b rest, drainBuffer bufs = (waits, some (b, rest)) →
      b ≤ 5 * CHUNK_SIZE ∧ ∀ e ∈ waits, e = SendEvent.wait := by
  induction bufs with
  | nil =>
      intro waits b rest h
      rw [drainBuffer] at h
      injection h with h1 h2
      cases h2
  | cons b0 rest0 ih =>
      intro waits b rest h
      rw [drainBuffer] at h
      by_cases hb : 5 * CHUNK_SIZE < b0
      · rw [if_pos hb] at h
        injection h with h1 h2
        rcases hd : drainBuffer rest0 with ⟨ws, r2⟩
        rw [hd] at h1 h2
        have h1x : SendEvent.wait :: ws = waits := h1
        have h2x : r2 = some (b, rest) := h2
        obtain ⟨hble, hws⟩ := ih ws b rest (by rw [hd, h2x])
        constructor
        · exact hble
        · intro e he
          rw [← h1x] at he
          rcases List.mem_cons.mp he with heq | hmem
          · exact heq
          · exact hws e hmem
      · rw [if_neg hb] at h
        injection h with h1 h2
        injection h2 with h3
        injection h3 with hb0 hrest
        constructor
        · rw [← hb0]
          omega
        · intro e he
          rw [← h1] at he
          cases he

theorem sendFlowGo_no_overfull (cs : List (List Nat)) :
    ∀ bufs trace, sendFlowGo cs bufs = some trace →
      ∀ c b, SendEvent.send c b ∈ trace → b ≤ 5 * CHUNK_SIZE := by
  induction cs with
  | nil =>
      intro bufs trace h c b hmem
      rw [sendFlowGo] at h
      injection h with h1
      rw [← h1] at hmem
      cases hmem
  | cons c0 cs ih =>
      intro bufs trace h c b hmem
      rw [sendFlowGo] at h
      rcases hd : drainBuffer bufs with ⟨waits, r⟩
      rw [hd] at h
      cases r with
      | none =>
          dsimp only at h
          cases h
      | some pr =>
          rcases pr with ⟨b0, rest⟩
          dsimp only at h
          cases hrec : sendFlowGo cs rest with
          | none =>
              rw [hrec] at h
              cases h
          | some evs =>
              rw [hrec] at h
              injection h with h1
              rw [← h1] at hmem
              obtain ⟨hble, hws⟩ := drainBuffer_some bufs waits b0 rest hd
              rcases List.mem_append.mp hmem with hw | hcons
              · cases hws _ hw
              · rcases List.mem_cons.mp hcons with heq | hevs
                · injection heq with hc hb
                  rw [hb]
                  exact hble
                · exact ih rest evs hrec c b hevs

/-- C9: whatever bufferedAmount readings the channel reports, every
chunk write performed by the flow-controlled send loop happens at a
reading at or below 5 * CHUNK_SIZE: while the reading exceeds the
threshold the loop only sleeps and re-polls, and the chunk is written
only once the buffer has drained.  (The 50ms sleep duration itself is
wall-clock behaviour outside the embedding; each wait event is one
such sleep.) -/
theorem sendFile_flow_control (file bufs : List Nat) (trace : List SendEvent)
    (h : sendFileFlow file bufs = some trace) :
    ∀ c b, SendEvent.send c b ∈ trace → b ≤ 5 * CHUNK_SIZE :=
  sendFlowGo_no_overfull (sentChunks file) bufs trace h

/-- C9 witness: a two-byte file with a first reading above the
threshold (one wait) and a second at zero, where the write happens
and the recorded reading is within the threshold. -/
theorem sendFile_flow_control_witness :
    sendFileFlow [1, 2] [100000, 0] = some [SendEvent.wait, SendEvent.send [1, 2] 0] ∧
    (0 : Nat) ≤ 5 * CHUNK_SIZE := by
  have hflow : sendFileFlow [1, 2] [100000, 0]
      = some [SendEvent.wait, SendEvent.send [1, 2] 0] := by
    have hchunks : sentChunks [1, 2] = [[1, 2]] := by
      simp [sentChunks, sendChunksLoop, CHUNK_SIZE]
    rw [sendFileFlow, hchunks]
    decide
  exact ⟨hflow,
    sendFile_flow_control [1, 2] [100000, 0] [SendEvent.wait, SendEvent.send [1, 2] 0]
      hflow [1, 2] 0 (by decide)⟩
